import Mathlib

/-!
Verification of the Fallout-London-VR-Installer core engine against its
natural-language specification.  The Python source (src/installer.py) is
shallowly embedded: files are lists of byte values (`List Nat`), directories
are association lists from names to contents, and the thread-pool copy
engine is modelled as a deterministic fold over the (size-sorted) manifest
with a per-task environment describing the I/O outcomes.
-/

namespace Installer

/-! ### Byte-level little-endian codec (struct.unpack / struct.pack '<I') -/

/-- Little-endian decoding of a byte list, least significant byte first.
`leDecode [b0,b1,b2,b3] = b0 + 256*b1 + 65536*b2 + 16777216*b3`,
the value of `struct.unpack('<I', bytes)`. -/
def leDecode (l : List Nat) : Nat :=
  l.foldr (fun b acc => b + 256 * acc) 0

/-- Little-endian encoding of an unsigned 32-bit value into 4 bytes,
the value of `struct.pack('<I', v)`. -/
def leEncode32 (v : Nat) : List Nat :=
  [v % 256, v / 256 % 256, v / 65536 % 256, v / 16777216 % 256]

theorem leEncode32_length (v : Nat) : (leEncode32 v).length = 4 := rfl

theorem leDecode_leEncode32 (v : Nat) :
    leDecode (leEncode32 v) = v % 4294967296 := by
  simp only [leDecode, leEncode32, List.foldr]
  omega

/-! ### Character-list string helpers

Python string operations (`.lower()`, `.startswith`, `.endswith`, `in`,
`.split`) are embedded as executable functions on the character lists
backing Lean strings, for ASCII names (every name handled by the
installer is ASCII). -/

/-- ASCII lowercasing of one character, as Python `str.lower` acts on
ASCII input. -/
def lowerChar (c : Char) : Char :=
  if 65 ≤ c.toNat ∧ c.toNat ≤ 90 then Char.ofNat (c.toNat + 32) else c

/-- Python `s.lower()` on ASCII strings. -/
def strLower (s : String) : String := ⟨s.data.map lowerChar⟩

/-- Whether the first list begins with the second. -/
def listBeginsWith [DecidableEq α] : List α → List α → Bool
  | _, [] => true
  | [], _ :: _ => false
  | a :: as, b :: bs => if a = b then listBeginsWith as bs else false

/-- Whether the second list occurs as a contiguous sublist of the first. -/
def listHasInfix [DecidableEq α] : List α → List α → Bool
  | [], t => t.isEmpty
  | a :: as, t => listBeginsWith (a :: as) t || listHasInfix as t

/-- Python `s.startswith(pre)`. -/
def strBegins (s pre : String) : Bool := listBeginsWith s.data pre.data

/-- Python `s.endswith(suf)`. -/
def strEnds (s suf : String) : Bool := listBeginsWith s.data.reverse suf.data.reverse

/-- Python `needle in hay` (substring containment). -/
def strHasSub (hay needle : String) : Bool := listHasInfix hay.data needle.data

/-- Characters before the first occurrence of the separator: the value of
Python `chars.split(sep)[0]` (the whole list when the separator is absent). -/
def takeBeforeSep [DecidableEq α] (sep : List α) : List α → List α
  | [] => []
  | a :: as => if listBeginsWith (a :: as) sep then [] else a :: takeBeforeSep sep as

/-! ### BA2 archive header (installer.py lines 56-90) -/

/-- `ArchiveVersionEnum.FALLOUT_4`: the VR compatible version code. -/
def FALLOUT_4 : Nat := 1

/-- `ArchiveVersionEnum.FALLOUT_4_NG2`: Next-Gen version 7. -/
def FALLOUT_4_NG2 : Nat := 7

/-- `ArchiveVersionEnum.FALLOUT_4_NG`: Next-Gen version 8. -/
def FALLOUT_4_NG : Nat := 8

/-- BA2 archive header structure: magic(4) + version(4) + format(4) + file_count(4). -/
structure BA2Header where
  magic : List Nat
  version : Nat
  format : List Nat
  file_count : Nat
deriving Repr, DecidableEq

/-- The fixed magic tag `b'BTDX'` as ASCII byte values. -/
def btdxMagic : List Nat := [66, 84, 68, 88]

/-- `BA2Header.from_file`: parse the BA2 header from the first 16 bytes of a
file.  Returns `none` when fewer than 16 bytes are available or when the
magic signature does not match; the Python code also converts any I/O
exception into `None`, so the embedded reader is total on the byte list. -/
def BA2Header.from_file (data : List Nat) : Option BA2Header :=
  if data.length < 16 then none
  else if data.take 4 ≠ btdxMagic then none
  else some ⟨data.take 4, leDecode ((data.drop 4).take 4), (data.drop 8).take 4,
    leDecode ((data.drop 12).take 4)⟩

/-- In-place version rewrite of `FalloutVRDowngrader.downgrade_ba2_file`
(`f.seek(4); f.write(struct.pack('<I', code))` on a file opened `r+b`),
with the written constant generalised to a parameter: bytes 4..7 are
replaced by the little-endian encoding of `code`, all other bytes kept. -/
def writeVersionCode (data : List Nat) (code : Nat) : List Nat :=
  data.take 4 ++ leEncode32 code ++ data.drop 8

theorem writeVersionCode_length (data : List Nat) (code : Nat)
    (h : 16 ≤ data.length) :
    (writeVersionCode data code).length = data.length := by
  simp only [writeVersionCode, List.length_append, List.length_take,
    leEncode32_length, List.length_drop]
  omega

theorem writeVersionCode_take4 (data : List Nat) (code : Nat)
    (h : 16 ≤ data.length) :
    (writeVersionCode data code).take 4 = data.take 4 := by
  have h4 : (data.take 4).length = 4 := by
    simp only [List.length_take]; omega
  calc (writeVersionCode data code).take 4
      = (data.take 4 ++ (leEncode32 code ++ data.drop 8)).take (data.take 4).length := by
        simp only [writeVersionCode, List.append_assoc, h4]
    _ = data.take 4 := List.take_left _ _

theorem writeVersionCode_drop8 (data : List Nat) (code : Nat)
    (h : 16 ≤ data.length) :
    (writeVersionCode data code).drop 8 = data.drop 8 := by
  have h8 : (data.take 4 ++ leEncode32 code).length = 8 := by
    simp only [List.length_append, List.length_take, leEncode32_length]
    omega
  calc (writeVersionCode data code).drop 8
      = ((data.take 4 ++ leEncode32 code) ++ data.drop 8).drop
          (data.take 4 ++ leEncode32 code).length := by
        simp only [writeVersionCode, List.append_assoc, h8]
    _ = data.drop 8 := List.drop_left _ _

theorem writeVersionCode_versionBytes (data : List Nat) (code : Nat)
    (h : 16 ≤ data.length) :
    ((writeVersionCode data code).drop 4).take 4 = leEncode32 code := by
  have h4 : (data.take 4).length = 4 := by
    simp only [List.length_take]; omega
  have hdrop : (writeVersionCode data code).drop 4
      = leEncode32 code ++ data.drop 8 := by
    calc (writeVersionCode data code).drop 4
        = (data.take 4 ++ (leEncode32 code ++ data.drop 8)).drop (data.take 4).length := by
          simp only [writeVersionCode, List.append_assoc, h4]
      _ = leEncode32 code ++ data.drop 8 := List.drop_left _ _
  rw [hdrop]
  calc (leEncode32 code ++ data.drop 8).take 4
      = (leEncode32 code ++ data.drop 8).take (leEncode32 code).length := by
        rw [leEncode32_length]
    _ = leEncode32 code := List.take_left _ _

/-- Shared helper: rewriting the version bytes of a file with a valid header
yields a file whose header is identical except for the version field. -/
theorem from_file_writeVersionCode (data : List Nat) (code : Nat) (hd : BA2Header)
    (h : BA2Header.from_file data = some hd) (hc : code < 4294967296) :
    BA2Header.from_file (writeVersionCode data code)
      = some ⟨hd.magic, code, hd.format, hd.file_count⟩ := by
  simp only [BA2Header.from_file] at h
  split at h
  · simp at h
  · rename_i hlen
    split at h
    · simp at h
    · rename_i hmagic
      have h16 : 16 ≤ data.length := by omega
      have hlen' : ¬ (writeVersionCode data code).length < 16 := by
        rw [writeVersionCode_length data code h16]; omega
      have e12 : ∀ l : List Nat, l.drop 12 = (l.drop 8).drop 4 := by
        intro l
        rw [List.drop_drop]
      have hdrop12 : (writeVersionCode data code).drop 12 = data.drop 12 := by
        rw [e12, writeVersionCode_drop8 data code h16, ← e12]
      simp only [Option.some.injEq] at h
      subst h
      simp only [BA2Header.from_file, if_neg hlen',
        writeVersionCode_take4 data code h16,
        writeVersionCode_versionBytes data code h16,
        writeVersionCode_drop8 data code h16, hdrop12,
        leDecode_leEncode32, Nat.mod_eq_of_lt hc, if_neg hmagic]

/-! ### Flat-directory filesystem model for the downgrader

`FalloutVRDowngrader` only ever touches files directly inside its data
directory, so the state is an association list from file names to byte
contents.  `readFile` is a lookup of the first matching name; `writeAt`
replaces the contents stored under a name in place. -/

/-- One directory of named byte files. -/
abbrev FS := List (String × List Nat)

/-- Read the contents stored under a name (first match). -/
def readFile : FS → String → Option (List Nat)
  | [], _ => none
  | e :: rest, p => if e.1 = p then some e.2 else readFile rest p

/-- Overwrite the contents stored under a name, in place. -/
def writeAt : FS → String → List Nat → FS
  | [], _, _ => []
  | e :: rest, p, c => (if e.1 = p then (e.1, c) else e) :: writeAt rest p c

/-- The file names of a directory, in listing order. -/
def names (fs : FS) : List String := fs.map (·.1)

/-- `self.data_path.glob("*.ba2")`: the `.ba2` files of the directory
(Windows globbing is case-insensitive, hence the lowercase comparison). -/
def ba2Files (fs : FS) : List String :=
  (names fs).filter (fun n => strEnds (strLower n) ".ba2")

/-- Whether the archive stored under `p` currently carries a Next-Gen
version code (`header.version in [FALLOUT_4_NG, FALLOUT_4_NG2]`);
an unreadable or invalid header counts as `false`. -/
def isNextGenAt (fs : FS) (p : String) : Bool :=
  match (readFile fs p).bind BA2Header.from_file with
  | some h => h.version == FALLOUT_4_NG || h.version == FALLOUT_4_NG2
  | none => false

/-- The static DLC group catalog of `find_dlc_ba2_status`. -/
def dlc_groups : List (String × List String) :=
  [("Automatron DLC", ["DLCRobot"]),
   ("Far Harbor DLC", ["DLCCoast"]),
   ("Nuka-World DLC", ["DLCNukaWorld"]),
   ("Wasteland Workshop DLC", ["DLCworkshop"])]

/-- The `.ba2` files whose name starts with one of the group's name
stems (`any(ba2_file.name.startswith(p) for p in prefixes)`). -/
def groupBa2Files (fs : FS) (stems : List String) : List String :=
  (ba2Files fs).filter (fun n => stems.any (fun stem => strBegins n stem))

/-- `FalloutVRDowngrader.find_dlc_ba2_status`: for each DLC group with at
least one matching archive, its files and a status string, `"Needs
Downgrade"` when some file carries a Next-Gen version. -/
def find_dlc_ba2_status (fs : FS) : List (String × List String × String) :=
  dlc_groups.filterMap (fun g =>
    let dlcFiles := groupBa2Files fs g.2
    if dlcFiles.isEmpty then none
    else some (g.1, dlcFiles,
      if dlcFiles.any (fun p => isNextGenAt fs p) then "Needs Downgrade" else "London Ready"))

/-- `FalloutVRDowngrader.get_dlc_needing_downgrade`: groups whose status is
`"Needs Downgrade"` with the subset of their files that are Next-Gen. -/
def get_dlc_needing_downgrade (fs : FS) : List (String × List String) :=
  (find_dlc_ba2_status fs).filterMap (fun e =>
    if e.2.2 = "Needs Downgrade" then
      let ng := e.2.1.filter (fun p => isNextGenAt fs p)
      if ng.isEmpty then none else some (e.1, ng)
    else none)

/-- `FalloutVRDowngrader.downgrade_ba2_file`: unreadable header is a
failure; an already VR-compatible version is reported as success without a
write; an unknown version is a failure; a Next-Gen version has its version
field rewritten in place to `FALLOUT_4`. -/
def downgrade_ba2_file (fs : FS) (p : String) : FS × Bool :=
  match readFile fs p with
  | none => (fs, false)
  | some d =>
    match BA2Header.from_file d with
    | none => (fs, false)
    | some h =>
      if h.version = FALLOUT_4 then (fs, true)
      else if h.version = FALLOUT_4_NG ∨ h.version = FALLOUT_4_NG2 then
        (writeAt fs p (writeVersionCode d FALLOUT_4), true)
      else (fs, false)

/-- The inner per-group loop of `downgrade_dlc_ba2_files`: downgrade each
file in turn, collecting the successfully processed paths. -/
def downgradeGroup : FS → List String → FS × List String
  | fs, [] => (fs, [])
  | fs, p :: rest =>
    let r1 := downgrade_ba2_file fs p
    let r2 := downgradeGroup r1.1 rest
    (r2.1, (if r1.2 then [p] else []) ++ r2.2)

/-- The outer loop of `downgrade_dlc_ba2_files` over the groups needing
work: accumulates the success count and the per-group map of patched
paths (a group appears only when at least one of its files succeeded). -/
def runGroups : FS → List (String × List String) → FS × Nat × List (String × List String)
  | fs, [] => (fs, 0, [])
  | fs, g :: rest =>
    let r1 := downgradeGroup fs g.2
    let r2 := runGroups r1.1 rest
    (r2.1, r1.2.length + r2.2.1, (if r1.2.isEmpty then [] else [(g.1, r1.2)]) ++ r2.2.2)

/-- `FalloutVRDowngrader.downgrade_dlc_ba2_files`: compute the groups
needing a downgrade, then rewrite every Next-Gen archive among them,
returning the new directory state, the success count and the per-group
map of patched files. -/
def downgrade_dlc_ba2_files (fs : FS) : FS × Nat × List (String × List String) :=
  runGroups fs (get_dlc_needing_downgrade fs)

/-! ### Downgrader construction (installer.py lines 118-123) -/

/-- Python exception values surfaced by the embedded constructors. -/
inductive PyError where
  | fileNotFound (msg : String)
deriving DecidableEq, Repr

/-- The constructed downgrader object (the fields the claims need). -/
structure FalloutVRDowngrader where
  data_path : String
deriving DecidableEq, Repr

/-- `FalloutVRDowngrader.__init__`: stores the data path and raises
`FileNotFoundError` when it does not exist, before any scan or rewrite.
`existingDirs` is the set of directories present on the machine. -/
def FalloutVRDowngrader.init (existingDirs : List String) (p : String) :
    Except PyError FalloutVRDowngrader :=
  if existingDirs.contains p then Except.ok ⟨p⟩
  else Except.error (PyError.fileNotFound ("Fallout 4 VR Data directory not found: " ++ p))

/-! ### Support lemmas for the downgrader -/

theorem readFile_writeAt_self (fs : FS) (p : String) (c d : List Nat)
    (h : readFile fs p = some d) : readFile (writeAt fs p c) p = some c := by
  induction fs with
  | nil => simp [readFile] at h
  | cons e rest ih =>
    by_cases hp : e.1 = p
    · simp [readFile, writeAt, hp]
    · simp only [readFile, if_neg hp] at h
      simp only [writeAt, if_neg hp, readFile, if_neg hp]
      exact ih h

theorem readFile_writeAt_ne (fs : FS) (p q : String) (c : List Nat) (h : q ≠ p) :
    readFile (writeAt fs p c) q = readFile fs q := by
  induction fs with
  | nil => rfl
  | cons e rest ih =>
    by_cases hp : e.1 = p
    · have hq : ¬ e.1 = q := fun he => h (he ▸ hp)
      simp only [writeAt, if_pos hp, readFile, if_neg hq]
      exact ih
    · simp only [writeAt, if_neg hp, readFile]
      split
      · rfl
      · exact ih

theorem names_writeAt (fs : FS) (p : String) (c : List Nat) :
    names (writeAt fs p c) = names fs := by
  induction fs with
  | nil => rfl
  | cons e rest ih =>
    simp only [names, writeAt, List.map_cons] at ih ⊢
    rw [ih]
    split <;> rfl

theorem downgrade_ba2_file_noFile (fs : FS) (p : String)
    (hr : readFile fs p = none) : downgrade_ba2_file fs p = (fs, false) := by
  simp [downgrade_ba2_file, hr]

theorem downgrade_ba2_file_badHeader (fs : FS) (p : String) (d : List Nat)
    (hr : readFile fs p = some d) (hh : BA2Header.from_file d = none) :
    downgrade_ba2_file fs p = (fs, false) := by
  simp [downgrade_ba2_file, hr, hh]

theorem downgrade_ba2_file_already (fs : FS) (p : String) (d : List Nat)
    (h : BA2Header) (hr : readFile fs p = some d)
    (hh : BA2Header.from_file d = some h) (h1 : h.version = FALLOUT_4) :
    downgrade_ba2_file fs p = (fs, true) := by
  simp [downgrade_ba2_file, hr, hh, h1]

theorem downgrade_ba2_file_ng (fs : FS) (p : String) (d : List Nat)
    (h : BA2Header) (hr : readFile fs p = some d)
    (hh : BA2Header.from_file d = some h) (h1 : ¬ h.version = FALLOUT_4)
    (h78 : h.version = FALLOUT_4_NG ∨ h.version = FALLOUT_4_NG2) :
    downgrade_ba2_file fs p = (writeAt fs p (writeVersionCode d FALLOUT_4), true) := by
  simp only [downgrade_ba2_file, hr, hh]
  rw [if_neg h1, if_pos h78]

theorem downgrade_ba2_file_unknown (fs : FS) (p : String) (d : List Nat)
    (h : BA2Header) (hr : readFile fs p = some d)
    (hh : BA2Header.from_file d = some h) (h1 : ¬ h.version = FALLOUT_4)
    (h78 : ¬ (h.version = FALLOUT_4_NG ∨ h.version = FALLOUT_4_NG2)) :
    downgrade_ba2_file fs p = (fs, false) := by
  simp only [downgrade_ba2_file, hr, hh]
  rw [if_neg h1, if_neg h78]

theorem isNextGenAt_downgrade_self (fs : FS) (p : String) :
    isNextGenAt (downgrade_ba2_file fs p).1 p = false := by
  cases hr : readFile fs p with
  | none => rw [downgrade_ba2_file_noFile fs p hr]; simp [isNextGenAt, hr]
  | some d =>
    cases hh : BA2Header.from_file d with
    | none => rw [downgrade_ba2_file_badHeader fs p d hr hh]; simp [isNextGenAt, hr, hh]
    | some h =>
      by_cases h1 : h.version = FALLOUT_4
      · rw [downgrade_ba2_file_already fs p d h hr hh h1]
        simp [isNextGenAt, hr, hh, h1, FALLOUT_4, FALLOUT_4_NG, FALLOUT_4_NG2]
      · by_cases h78 : h.version = FALLOUT_4_NG ∨ h.version = FALLOUT_4_NG2
        · rw [downgrade_ba2_file_ng fs p d h hr hh h1 h78]
          have hw := readFile_writeAt_self fs p (writeVersionCode d FALLOUT_4) d hr
          have hf := from_file_writeVersionCode d FALLOUT_4 h hh (by norm_num [FALLOUT_4])
          simp only [FALLOUT_4] at hw hf
          simp [isNextGenAt, hw, hf, FALLOUT_4, FALLOUT_4_NG, FALLOUT_4_NG2]
        · rw [downgrade_ba2_file_unknown fs p d h hr hh h1 h78]
          simp only [FALLOUT_4_NG, FALLOUT_4_NG2] at h78
          simp [isNextGenAt, hr, hh, FALLOUT_4_NG, FALLOUT_4_NG2]
          omega

theorem isNextGenAt_downgrade_mono (fs : FS) (p q : String)
    (h : isNextGenAt (downgrade_ba2_file fs p).1 q = true) :
    isNextGenAt fs q = true := by
  cases hr : readFile fs p with
  | none => rw [downgrade_ba2_file_noFile fs p hr] at h; exact h
  | some d =>
    cases hh : BA2Header.from_file d with
    | none => rw [downgrade_ba2_file_badHeader fs p d hr hh] at h; exact h
    | some hd =>
      by_cases h1 : hd.version = FALLOUT_4
      · rw [downgrade_ba2_file_already fs p d hd hr hh h1] at h; exact h
      · by_cases h78 : hd.version = FALLOUT_4_NG ∨ hd.version = FALLOUT_4_NG2
        · rw [downgrade_ba2_file_ng fs p d hd hr hh h1 h78] at h
          by_cases hq : q = p
          · subst hq
            have hw := readFile_writeAt_self fs q (writeVersionCode d FALLOUT_4) d hr
            have hf := from_file_writeVersionCode d FALLOUT_4 hd hh (by norm_num [FALLOUT_4])
            simp only [FALLOUT_4] at hw hf
            simp [isNextGenAt, hw, hf, FALLOUT_4, FALLOUT_4_NG, FALLOUT_4_NG2] at h
          · rw [show isNextGenAt (writeAt fs p (writeVersionCode d FALLOUT_4), true).1 q
                = isNextGenAt fs q from by
              simp [isNextGenAt, readFile_writeAt_ne fs p q _ hq]] at h
            exact h
        · rw [downgrade_ba2_file_unknown fs p d hd hr hh h1 h78] at h; exact h

theorem names_downgrade (fs : FS) (p : String) :
    names (downgrade_ba2_file fs p).1 = names fs := by
  cases hr : readFile fs p with
  | none => rw [downgrade_ba2_file_noFile fs p hr]
  | some d =>
    cases hh : BA2Header.from_file d with
    | none => rw [downgrade_ba2_file_badHeader fs p d hr hh]
    | some h =>
      by_cases h1 : h.version = FALLOUT_4
      · rw [downgrade_ba2_file_already fs p d h hr hh h1]
      · by_cases h78 : h.version = FALLOUT_4_NG ∨ h.version = FALLOUT_4_NG2
        · rw [downgrade_ba2_file_ng fs p d h hr hh h1 h78]
          exact names_writeAt fs p _
        · rw [downgrade_ba2_file_unknown fs p d h hr hh h1 h78]

theorem downgradeGroup_mono (l : List String) (fs : FS) (q : String)
    (h : isNextGenAt (downgradeGroup fs l).1 q = true) : isNextGenAt fs q = true := by
  induction l generalizing fs with
  | nil => exact h
  | cons p rest ih =>
    simp only [downgradeGroup] at h
    exact isNextGenAt_downgrade_mono fs p q (ih _ h)

theorem downgradeGroup_clears (l : List String) (fs : FS) (p : String) (hp : p ∈ l) :
    isNextGenAt (downgradeGroup fs l).1 p = false := by
  induction l generalizing fs with
  | nil => cases hp
  | cons a rest ih =>
    simp only [downgradeGroup]
    rcases List.mem_cons.mp hp with rfl | hm
    · have h0 := isNextGenAt_downgrade_self fs p
      by_cases hafter : isNextGenAt (downgradeGroup (downgrade_ba2_file fs p).1 rest).1 p = true
      · have := downgradeGroup_mono rest _ p hafter
        rw [this] at h0
        cases h0
      · simpa using hafter
    · exact ih _ hm

theorem names_downgradeGroup (l : List String) (fs : FS) :
    names (downgradeGroup fs l).1 = names fs := by
  induction l generalizing fs with
  | nil => rfl
  | cons p rest ih =>
    simp only [downgradeGroup]
    rw [ih, names_downgrade]

theorem runGroups_mono (gs : List (String × List String)) (fs : FS) (q : String)
    (h : isNextGenAt (runGroups fs gs).1 q = true) : isNextGenAt fs q = true := by
  induction gs generalizing fs with
  | nil => exact h
  | cons g rest ih =>
    simp only [runGroups] at h
    exact downgradeGroup_mono g.2 fs q (ih _ h)

theorem runGroups_clears (gs : List (String × List String)) (fs : FS)
    (g : String × List String) (hg : g ∈ gs) (p : String) (hp : p ∈ g.2) :
    isNextGenAt (runGroups fs gs).1 p = false := by
  induction gs generalizing fs with
  | nil => cases hg
  | cons a rest ih =>
    simp only [runGroups]
    rcases List.mem_cons.mp hg with rfl | hm
    · have h0 := downgradeGroup_clears g.2 fs p hp
      by_cases hafter : isNextGenAt (runGroups (downgradeGroup fs g.2).1 rest).1 p = true
      · have := runGroups_mono rest _ p hafter
        rw [this] at h0
        cases h0
      · simpa using hafter
    · exact ih _ hm

theorem names_runGroups (gs : List (String × List String)) (fs : FS) :
    names (runGroups fs gs).1 = names fs := by
  induction gs generalizing fs with
  | nil => rfl
  | cons g rest ih =>
    simp only [runGroups]
    rw [ih, names_downgradeGroup]

theorem groupBa2Files_names_eq (fs fs' : FS) (h : names fs' = names fs)
    (stems : List String) : groupBa2Files fs' stems = groupBa2Files fs stems := by
  simp [groupBa2Files, ba2Files, h]

theorem get_dlc_needing_downgrade_eq_nil (fs : FS)
    (h : ∀ g ∈ dlc_groups, ∀ p ∈ groupBa2Files fs g.2, isNextGenAt fs p = false) :
    get_dlc_needing_downgrade fs = [] := by
  unfold get_dlc_needing_downgrade
  rw [List.filterMap_eq_nil_iff]
  intro e he
  unfold find_dlc_ba2_status at he
  rw [List.mem_filterMap] at he
  obtain ⟨g, hg, hge⟩ := he
  by_cases hemp : (groupBa2Files fs g.2).isEmpty
  · simp only [hemp, if_true] at hge
    cases hge
  · have hany : (groupBa2Files fs g.2).any (fun p => isNextGenAt fs p) = false := by
      rw [List.any_eq_false]
      intro p hp
      simp [h g hg p hp]
    simp only [hemp, hany, Bool.false_eq_true, if_false, Option.some.injEq] at hge
    rw [← hge]
    simp

theorem no_nextGen_after_downgrade_run (fs : FS) (g : String × List String)
    (hg : g ∈ dlc_groups) (p : String)
    (hp : p ∈ groupBa2Files (downgrade_dlc_ba2_files fs).1 g.2) :
    isNextGenAt (downgrade_dlc_ba2_files fs).1 p = false := by
  have hnames : names (downgrade_dlc_ba2_files fs).1 = names fs := names_runGroups _ _
  rw [groupBa2Files_names_eq fs _ hnames] at hp
  by_cases hng : isNextGenAt fs p = true
  · have hmem : (g.1, (groupBa2Files fs g.2).filter (fun q => isNextGenAt fs q))
        ∈ get_dlc_needing_downgrade fs := by
      unfold get_dlc_needing_downgrade
      rw [List.mem_filterMap]
      refine ⟨(g.1, groupBa2Files fs g.2, "Needs Downgrade"), ?_, ?_⟩
      · unfold find_dlc_ba2_status
        rw [List.mem_filterMap]
        refine ⟨g, hg, ?_⟩
        have hne : (groupBa2Files fs g.2).isEmpty = false := by
          rw [List.isEmpty_eq_false]
          exact fun hnil => by rw [hnil] at hp; cases hp
        have hany : (groupBa2Files fs g.2).any (fun q => isNextGenAt fs q) = true := by
          rw [List.any_eq_true]
          exact ⟨p, hp, hng⟩
        simp only [hne, hany, Bool.false_eq_true, if_false, if_true]
      · have hpin : p ∈ (groupBa2Files fs g.2).filter (fun q => isNextGenAt fs q) :=
          List.mem_filter.mpr ⟨hp, hng⟩
        have hne : ((groupBa2Files fs g.2).filter (fun q => isNextGenAt fs q)).isEmpty = false := by
          rw [List.isEmpty_eq_false]
          exact fun hnil => by rw [hnil] at hpin; cases hpin
        simp [hne]
    have hpin : p ∈ (groupBa2Files fs g.2).filter (fun q => isNextGenAt fs q) :=
      List.mem_filter.mpr ⟨hp, hng⟩
    exact runGroups_clears _ fs _ hmem p hpin
  · have hafter : isNextGenAt (downgrade_dlc_ba2_files fs).1 p ≠ true :=
      fun hh => hng (runGroups_mono _ _ _ hh)
    simpa using hafter

end Installer

/-! ## Claim theorems for the header codec -/

open Installer

/-- C3: for every file whose first 16 bytes form a valid header, reading the
header, then writing a new version code at byte offset 4, then reading again
yields a header identical to the first except that the version field equals
the new code; the other 12 header bytes (bytes 0..3 and 8..15, and in fact
every byte outside offsets 4..7) and the file length are unchanged. -/
theorem header_roundTrip_writeVersionCode (data : List Nat) (code : Nat)
    (hd : BA2Header) (h : BA2Header.from_file data = some hd)
    (hc : code < 4294967296) :
    BA2Header.from_file (writeVersionCode data code)
        = some ⟨hd.magic, code, hd.format, hd.file_count⟩
      ∧ (writeVersionCode data code).length = data.length
      ∧ (writeVersionCode data code).take 4 = data.take 4
      ∧ (writeVersionCode data code).drop 8 = data.drop 8 := by
  have h16 : 16 ≤ data.length := by
    by_contra hlt
    rw [BA2Header.from_file, if_pos (by omega : data.length < 16)] at h
    exact Option.noConfusion h
  exact ⟨from_file_writeVersionCode data code hd h hc,
    writeVersionCode_length data code h16,
    writeVersionCode_take4 data code h16,
    writeVersionCode_drop8 data code h16⟩

/-- Witness for C3 at a concrete 16-byte valid header. -/
theorem header_roundTrip_writeVersionCode_witness :
    BA2Header.from_file
        (writeVersionCode [66, 84, 68, 88, 8, 0, 0, 0, 71, 78, 82, 76, 2, 0, 0, 0] 1)
      = some ⟨[66, 84, 68, 88], 1, [71, 78, 82, 76], 2⟩ :=
  (header_roundTrip_writeVersionCode
    [66, 84, 68, 88, 8, 0, 0, 0, 71, 78, 82, 76, 2, 0, 0, 0] 1
    ⟨[66, 84, 68, 88], 8, [71, 78, 82, 76], 2⟩ (by decide) (by decide)).1

/-- C9: for every input whose first 4 bytes differ from the fixed magic tag,
or whose readable content is shorter than 16 bytes, `BA2Header.from_file`
returns `none`; the embedded reader is a total function, matching the Python
code which converts every exception into a `None` return. -/
theorem from_file_invalid_returns_none (data : List Nat)
    (h : data.length < 16 ∨ data.take 4 ≠ btdxMagic) :
    BA2Header.from_file data = none := by
  rcases h with h | h
  · simp [BA2Header.from_file, h]
  · simp [BA2Header.from_file, h]

/-- Witness for C9 at concrete inputs: a short file and a wrong-magic file. -/
theorem from_file_invalid_returns_none_witness :
    BA2Header.from_file [66, 84, 68] = none
      ∧ BA2Header.from_file [0, 0, 0, 0, 8, 0, 0, 0, 71, 78, 82, 76, 2, 0, 0, 0] = none :=
  ⟨from_file_invalid_returns_none [66, 84, 68] (Or.inl (by decide)),
   from_file_invalid_returns_none [0, 0, 0, 0, 8, 0, 0, 0, 71, 78, 82, 76, 2, 0, 0, 0]
     (Or.inr (by decide))⟩

/-! ## Claim theorems for the downgrader -/

/-- C5: running `downgrade_dlc_ba2_files` a second time, on the directory
state produced by the first run, leaves the directory in exactly the state
the first run produced and reports a success count of zero and an empty
per-group map, because every archive is already at the compatible version
code after the first run and is not rewritten. -/
theorem downgrade_dlc_ba2_files_idempotent (fs : FS) :
    downgrade_dlc_ba2_files (downgrade_dlc_ba2_files fs).1
      = ((downgrade_dlc_ba2_files fs).1, 0, []) := by
  have hnil : get_dlc_needing_downgrade (downgrade_dlc_ba2_files fs).1 = [] :=
    get_dlc_needing_downgrade_eq_nil _
      (fun g hg p hp => no_nextGen_after_downgrade_run fs g hg p hp)
  have hrfl : downgrade_dlc_ba2_files (downgrade_dlc_ba2_files fs).1
      = runGroups (downgrade_dlc_ba2_files fs).1
          (get_dlc_needing_downgrade (downgrade_dlc_ba2_files fs).1) := rfl
  rw [hrfl, hnil]
  rfl

/-- C10: constructing the downgrader against a root directory that does not
exist produces a `FileNotFoundError` at construction time (before any scan
or rewrite), and every successfully constructed downgrader's root does
exist, so no downgrader operation ever runs against a nonexistent root. -/
theorem downgrader_init_checks_root (existingDirs : List String) (p : String) :
    (existingDirs.contains p = false →
      FalloutVRDowngrader.init existingDirs p
        = Except.error (PyError.fileNotFound
            ("Fallout 4 VR Data directory not found: " ++ p)))
    ∧ (∀ d, FalloutVRDowngrader.init existingDirs p = Except.ok d →
        existingDirs.contains p = true ∧ d.data_path = p) := by
  constructor
  · intro h
    have hnc : ¬ (existingDirs.contains p = true) := by
      rw [h]
      exact Bool.false_ne_true
    unfold FalloutVRDowngrader.init
    rw [if_neg hnc]
  · intro d hok
    by_cases hc : existingDirs.contains p = true
    · refine ⟨hc, ?_⟩
      unfold FalloutVRDowngrader.init at hok
      rw [if_pos hc] at hok
      cases hok
      rfl
    · unfold FalloutVRDowngrader.init at hok
      rw [if_neg hc] at hok
      cases hok

/-- Witness for C10: a concrete missing root is rejected at construction. -/
theorem downgrader_init_checks_root_witness :
    FalloutVRDowngrader.init ["C:\\Games\\Fallout4VR\\Data"] "C:\\missing"
      = Except.error (PyError.fileNotFound
          ("Fallout 4 VR Data directory not found: " ++ "C:\\missing")) :=
  (downgrader_init_checks_root ["C:\\Games\\Fallout4VR\\Data"] "C:\\missing").1 (by decide)

namespace Installer

/-! ### ESMPatcher (installer.py lines 244-399)

`patch_fallout4_esm` manipulates three sibling paths: the target
`Fallout4.esm`, the `.backup` copy and the `.patched` temporary output.
File contents are abstract tokens (`Nat`); byte sizes are given by the
environment's `sizeOf`.  Each filesystem primitive (`shutil.copy2`,
`os.remove`, `os.rename`) is modelled as atomic: it either fully succeeds
or raises leaving the state unchanged. -/

/-- The three paths `patch_fallout4_esm` touches; `none` means absent. -/
structure EsmFs where
  esm : Option Nat
  backup : Option Nat
  patched : Option Nat
deriving DecidableEq, Repr

/-- Outcome of the external `xdelta3` invocation: normal completion with an
exit code, a timeout (`subprocess.TimeoutExpired` after 120 s), or another
raised exception; `output` is the content token of the temporary output
file when the tool left one behind. -/
inductive XdeltaResult where
  | completes (exitCode : Int) (output : Option Nat)
  | timesOut (output : Option Nat)
  | raisesExc (output : Option Nat)
deriving DecidableEq, Repr

/-- Environment of one `patch_fallout4_esm` invocation. -/
structure EsmEnv where
  orig : Nat
  sizeOf : Nat → Nat
  esmPresent : Bool
  patchAssetPresent : Bool
  xdeltaPresent : Bool
  backupCopyOk : Bool
  run : XdeltaResult

/-- The hard timeout, in seconds, of the external patch invocation. -/
def xdeltaTimeoutSeconds : Nat := 120

/-- The exact-size keys of `self.patch_mappings`. -/
def patchMappingSizes : List Nat := [330777465, 330553163]

/-- The minimum plausible output size check `patched_size > 300000000`. -/
def minPatchedSize : Nat := 300000000

/-- Restore path of every failure branch:
`if exists(backup): if exists(esm): remove(esm); rename(backup, esm)`. -/
def restoreBackup (fs : EsmFs) : EsmFs :=
  match fs.backup with
  | some b => { fs with esm := some b, backup := none }
  | none => fs

/-- `if os.path.exists(temp_output): os.remove(temp_output)`. -/
def removeTemp (fs : EsmFs) : EsmFs := { fs with patched := none }

/-- `ESMPatcher.patch_fallout4_esm`: pre-checks (target present, exact size
match, patch asset and tool present), backup creation, external tool run,
then either the success replacement or a restore.  When backup creation
itself raises, the Python handler hits an unbound `temp_output` name and
propagates `NameError` instead of returning `False`; the file state is the
untouched initial state either way, which is what the model records. -/
def patch_fallout4_esm (env : EsmEnv) : EsmFs × Bool :=
  if env.esmPresent = false then
    ({ esm := none, backup := none, patched := none }, false)
  else
    let fs0 : EsmFs := { esm := some env.orig, backup := none, patched := none }
    if (patchMappingSizes.contains (env.sizeOf env.orig)) = false then (fs0, false)
    else if env.patchAssetPresent = false then (fs0, false)
    else if env.xdeltaPresent = false then (fs0, false)
    else if env.backupCopyOk = false then (fs0, false)
    else
      let fs1 : EsmFs := { fs0 with backup := some env.orig }
      match env.run with
      | .completes code out =>
        let fs2 : EsmFs := { fs1 with patched := out }
        if code = 0 then
          match out with
          | some o =>
            if env.sizeOf o > minPatchedSize then
              ({ esm := some o, backup := none, patched := none }, true)
            else
              (removeTemp (restoreBackup fs2), false)
          | none => (restoreBackup fs2, false)
        else (removeTemp (restoreBackup fs2), false)
      | .timesOut out => (removeTemp (restoreBackup { fs1 with patched := out }), false)
      | .raisesExc out => (removeTemp (restoreBackup { fs1 with patched := out }), false)

end Installer

/-- C2: for every `patch_fallout4_esm` invocation whose target exists and
whose size matches a known key, on every failure path (tool non-zero exit,
timeout, missing or undersized output, exception) the target afterwards
holds exactly its pre-patch content; in every outcome the target is never
left absent and no backup or `.patched` temporary file remains. -/
theorem esm_patch_failure_restores_target (env : EsmEnv)
    (hp : env.esmPresent = true)
    (hsz : patchMappingSizes.contains (env.sizeOf env.orig) = true) :
    ((patch_fallout4_esm env).2 = false →
      (patch_fallout4_esm env).1
        = { esm := some env.orig, backup := none, patched := none })
    ∧ (patch_fallout4_esm env).1.esm ≠ none
    ∧ (patch_fallout4_esm env).1.backup = none
    ∧ (patch_fallout4_esm env).1.patched = none := by
  have hmem : env.sizeOf env.orig ∈ patchMappingSizes := by
    simpa using hsz
  cases hpa : env.patchAssetPresent with
  | false => simp [patch_fallout4_esm, hp, hsz, hmem, hpa]
  | true =>
    cases hxd : env.xdeltaPresent with
    | false => simp [patch_fallout4_esm, hp, hsz, hmem, hpa, hxd]
    | true =>
      cases hbk : env.backupCopyOk with
      | false => simp [patch_fallout4_esm, hp, hsz, hmem, hpa, hxd, hbk]
      | true =>
        cases hrun : env.run with
        | completes code out =>
          by_cases hcode : code = 0
          · cases out with
            | none =>
              simp [patch_fallout4_esm, hp, hsz, hmem, hpa, hxd, hbk, hrun, hcode,
                restoreBackup, removeTemp]
            | some o =>
              by_cases hsize : env.sizeOf o > minPatchedSize
              · simp [patch_fallout4_esm, hp, hsz, hmem, hpa, hxd, hbk, hrun, hcode,
                  hsize, restoreBackup, removeTemp]
              · simp [patch_fallout4_esm, hp, hsz, hmem, hpa, hxd, hbk, hrun, hcode,
                  hsize, restoreBackup, removeTemp]
          · simp [patch_fallout4_esm, hp, hsz, hmem, hpa, hxd, hbk, hrun, hcode,
              restoreBackup, removeTemp]
        | timesOut out =>
          simp [patch_fallout4_esm, hp, hsz, hmem, hpa, hxd, hbk, hrun,
            restoreBackup, removeTemp]
        | raisesExc out =>
          simp [patch_fallout4_esm, hp, hsz, hmem, hpa, hxd, hbk, hrun,
            restoreBackup, removeTemp]

/-- Witness for C2: a concrete non-zero tool exit leaves the original
target restored with no backup or temporary artifacts. -/
theorem esm_patch_failure_restores_target_witness :
    (patch_fallout4_esm
        ⟨330777465, fun n => n, true, true, true, true,
          XdeltaResult.completes 1 none⟩).1
      = { esm := some 330777465, backup := none, patched := none } :=
  (esm_patch_failure_restores_target
    ⟨330777465, fun n => n, true, true, true, true,
      XdeltaResult.completes 1 none⟩ rfl (by decide)).1 rfl

namespace Installer

/-! ### DLC detection across candidate directories (installer.py 5363-5496)

`detect_dlc_in_both_games` scans an ordered list of directories with
`_scan_single_directory_for_dlc`; each scan updates every DLC group's
record independently, so the model folds the single-directory scan for one
group over the ordered `(directory, sourceLabel)` list. -/

/-- One static catalog entry of the `dlc_info` table. -/
structure DlcEntry where
  esm : String
  ba2Stems : List String
deriving DecidableEq, Repr

/-- The mutable per-group record of `dlc_info`. -/
structure DlcState where
  found_in : Option String
  esm_path : Option String
  ba2_paths : List String
  is_next_gen : Option Bool
deriving DecidableEq, Repr

/-- Initial record: `found_in = None`, no paths, `is_next_gen = None`. -/
def initialDlcState : DlcState := ⟨none, none, [], none⟩

/-- Archive-name stem extraction of `_scan_single_directory_for_dlc`:
`file_name.split(' - ')[0]` when `' - '` occurs in the name, otherwise
`file_name.split('.')[0]`. -/
def extractStem (name : String) : String :=
  if listHasInfix name.data " - ".data then ⟨takeBeforeSep " - ".data name.data⟩
  else ⟨takeBeforeSep ".".data name.data⟩

/-- The `esm_map` lookup: the group's metadata file is present when the
directory holds a file of exactly that name (whose lowercase name ends in
`.esm`); the stored path is the file itself. -/
def findEsmIn (dir : FS) (esmName : String) : Option String :=
  if dir.any (fun f => strEnds (strLower f.1) ".esm" && f.1 == esmName) then some esmName
  else none

/-- The `ba2_map` matching: for each stem of the group, in order, the
directory's `.ba2` files whose extracted stem equals it exactly. -/
def groupBa2In (dir : FS) (stems : List String) : List (String × List Nat) :=
  stems.flatMap (fun stem =>
    dir.filter (fun f => strEnds (strLower f.1) ".ba2" && extractStem f.1 == stem))

/-- Whether a byte content carries a Next-Gen BA2 version. -/
def isNextGenBytes (d : List Nat) : Bool :=
  match BA2Header.from_file d with
  | some h => h.version == FALLOUT_4_NG || h.version == FALLOUT_4_NG2
  | none => false

/-- `_scan_single_directory_for_dlc`, restricted to one group: when the
group's metadata file is found, the record is replaced if and only if the
group is unresolved (`found_in is None`) or the new candidate is compatible
while the previous resolution was Next-Gen
(`not is_ng and dlc_data.get("is_next_gen")`). -/
def scan_single_directory_for_dlc (dir : FS) (source : String) (d : DlcEntry)
    (st : DlcState) : DlcState :=
  match findEsmIn dir d.esm with
  | none => st
  | some esmP =>
    let ba2s := groupBa2In dir d.ba2Stems
    let isNg := ba2s.any (fun f => isNextGenBytes f.2)
    if st.found_in = none ∨ (isNg = false ∧ st.is_next_gen = some true) then
      ⟨some source, some esmP, ba2s.map (·.1), some isNg⟩
    else st

/-- `detect_dlc_in_both_games`, projected to one group: fold the
single-directory scan over the ordered candidate directories. -/
def detect_dlc_for_group (dirs : List (FS × String)) (d : DlcEntry) : DlcState :=
  dirs.foldl (fun st e => scan_single_directory_for_dlc e.1 e.2 d st) initialDlcState

end Installer

/-- C4: once a group is resolved, a later-scanned directory (in which the
group's metadata file is found) supersedes the resolution exactly when the
previous resolution was Next-Gen and the new candidate is compatible;
otherwise the existing record is kept unchanged (first-found wins).  In
particular, a group resolved as Next-Gen from an earlier directory and
found compatible in a later one ends up resolved to the later source with
`is_next_gen = some false` and no archive of that (resolved) group
carrying a Next-Gen version. -/
theorem dlc_resolver_priority (dir : FS) (src : String) (d : DlcEntry)
    (st : DlcState) (esmP : String) (hfound : st.found_in ≠ none)
    (hesm : findEsmIn dir d.esm = some esmP) :
    (scan_single_directory_for_dlc dir src d st
        = if (groupBa2In dir d.ba2Stems).any (fun f => isNextGenBytes f.2) = false
             ∧ st.is_next_gen = some true
          then ⟨some src, some esmP, (groupBa2In dir d.ba2Stems).map (·.1),
                some ((groupBa2In dir d.ba2Stems).any (fun f => isNextGenBytes f.2))⟩
          else st)
    ∧ (∀ (dirA : FS) (srcA : String),
        (scan_single_directory_for_dlc dirA srcA d initialDlcState).is_next_gen
            = some true →
        (groupBa2In dir d.ba2Stems).any (fun f => isNextGenBytes f.2) = false →
        (scan_single_directory_for_dlc dir src d
            (scan_single_directory_for_dlc dirA srcA d initialDlcState)).found_in
            = some src
          ∧ (scan_single_directory_for_dlc dir src d
              (scan_single_directory_for_dlc dirA srcA d initialDlcState)).is_next_gen
            = some false
          ∧ ∀ f ∈ groupBa2In dir d.ba2Stems, isNextGenBytes f.2 = false) := by
  constructor
  · simp only [scan_single_directory_for_dlc, hesm]
    by_cases hc : (groupBa2In dir d.ba2Stems).any (fun f => isNextGenBytes f.2) = false
        ∧ st.is_next_gen = some true
    · rw [if_pos (Or.inr ⟨hc.1, hc.2⟩), if_pos hc]
    · rw [if_neg ?_, if_neg hc]
      rintro (hno | hcc)
      · exact hfound hno
      · exact hc hcc
  · intro dirA srcA hng1 hany2
    simp only [scan_single_directory_for_dlc, hesm]
    rw [if_pos (Or.inr ⟨hany2, hng1⟩)]
    refine ⟨rfl, ?_, ?_⟩
    · rw [hany2]
    · intro f hf
      rcases List.any_eq_false.mp hany2 f hf with hfalse
      simpa using hfalse

/-- Witness for C4: the Automatron group, already resolved from a first
directory as Next-Gen, is superseded by a second directory holding a
compatible archive set. -/
theorem dlc_resolver_priority_witness :
    scan_single_directory_for_dlc
        [("DLCRobot.esm", [84, 69, 83, 52]),
         ("DLCRobot - Main.ba2",
          [66, 84, 68, 88, 1, 0, 0, 0, 71, 78, 82, 76, 0, 0, 0, 0])]
        "Fallout 4 VR" ⟨"DLCRobot.esm", ["DLCRobot"]⟩
        ⟨some "Fallout 4 DLC", some "DLCRobot.esm",
         ["DLCRobot - Main.ba2"], some true⟩
      = ⟨some "Fallout 4 VR", some "DLCRobot.esm",
         ["DLCRobot - Main.ba2"], some false⟩ := by
  have h := (dlc_resolver_priority
    [("DLCRobot.esm", [84, 69, 83, 52]),
     ("DLCRobot - Main.ba2",
      [66, 84, 68, 88, 1, 0, 0, 0, 71, 78, 82, 76, 0, 0, 0, 0])]
    "Fallout 4 VR" ⟨"DLCRobot.esm", ["DLCRobot"]⟩
    ⟨some "Fallout 4 DLC", some "DLCRobot.esm",
     ["DLCRobot - Main.ba2"], some true⟩
    "DLCRobot.esm" (by decide) (by decide)).1
  rw [h]
  decide

namespace Installer

/-! ### Parallel tree copier (installer.py 4740-4962)

The source tree is a list of named entries (files with sizes, directories
with entries).  `copy_directory_parallel` walks the tree building the
manifest of `(relativePath, size)` pairs — pruning subdirectories whose
lowercase name is in `exclude_dirs`, dropping the files of any directory
whose full lowercase path contains an excluded name as a substring, and
skipping files whose lowercase name is in `exclude_files` — then sorts it
ascending by size and runs one copy task per entry.  Thread-pool
scheduling is modelled by processing the sorted manifest in order: every
per-entry fact proved below is order-independent, and the shared counter,
failure list and destination contents it aggregates do not depend on the
interleaving.  The per-task environment fixes, for each relative path,
whether the cancellation flag is observed at task start and how the single
copy attempt ends. -/

/-! A source tree entry (a file with its byte size, or a subdirectory) and
the listing of a directory, as a mutual inductive pair so that every walk
below is structurally recursive. -/
mutual
inductive FTree where
  | file (name : String) (size : Nat)
  | dir (name : String) (entries : FForest)
deriving Repr
inductive FForest where
  | nil
  | cons (t : FTree) (rest : FForest)
deriving Repr
end

/-- Directory listing from a plain list of entries. -/
def forestOf : List FTree → FForest
  | [] => FForest.nil
  | t :: ts => FForest.cons t (forestOf ts)

/-- Relative path of a child of the directory at relative path `rel`
(`os.path.relpath` of the joined path, with Windows separators). -/
def relJoin (rel child : String) : String :=
  if rel = "" then child else rel ++ "\\" ++ child

/-- Absolute path of a subdirectory (`os.path.join(root, name)`). -/
def pathJoin (root child : String) : String := root ++ "\\" ++ child

/-- The files of one directory level that survive the file-name exclusion
rule, as `(relativePath, size)` manifest entries. -/
def collectFiles (exFilesL : List String) (rel : String) : FForest → List (String × Nat)
  | FForest.nil => []
  | FForest.cons (FTree.file n s) rest =>
    (if exFilesL.contains (strLower n) then [] else [(relJoin rel n, s)])
      ++ collectFiles exFilesL rel rest
  | FForest.cons (FTree.dir _ _) rest => collectFiles exFilesL rel rest

mutual

/-- One pruned-descent step of `os.walk`: an excluded subdirectory (by
lowercase name) is pruned whole; otherwise its files are collected —
unless its full path contains an excluded name as a lowercase substring —
and the walk descends. -/
def walkEntry (exDirsL exFilesL : List String) (rootPath rel : String) :
    FTree → List (String × Nat)
  | FTree.file _ _ => []
  | FTree.dir n es =>
    if exDirsL.contains (strLower n) then []
    else
      (if exDirsL.any (fun e => strHasSub (strLower (pathJoin rootPath n)) e) then []
       else collectFiles exFilesL (relJoin rel n) es)
        ++ walkForest exDirsL exFilesL (pathJoin rootPath n) (relJoin rel n) es

/-- Walk the subdirectories of one directory in listing order. -/
def walkForest (exDirsL exFilesL : List String) (rootPath rel : String) :
    FForest → List (String × Nat)
  | FForest.nil => []
  | FForest.cons t rest =>
    walkEntry exDirsL exFilesL rootPath rel t
      ++ walkForest exDirsL exFilesL rootPath rel rest

end

/-- The whole `os.walk` manifest collection of `copy_directory_parallel`:
the top directory's surviving files, then every subtree in pre-order. -/
def walkDir (exDirsL exFilesL : List String) (rootPath rel : String)
    (entries : FForest) : List (String × Nat) :=
  (if exDirsL.any (fun e => strHasSub (strLower rootPath) e) then []
   else collectFiles exFilesL rel entries)
    ++ walkForest exDirsL exFilesL rootPath rel entries

/-- Stable ascending-by-size insertion (equal sizes keep listing order),
the effect of Python's stable `files_to_copy.sort(key=lambda x: x[2])`. -/
def insertBySize (x : String × Nat) : List (String × Nat) → List (String × Nat)
  | [] => [x]
  | y :: ys => if x.2 < y.2 then x :: y :: ys else y :: insertBySize x ys

/-- Stable sort of the manifest ascending by size. -/
def sortBySize (l : List (String × Nat)) : List (String × Nat) :=
  l.foldr insertBySize []

/-- How the single chunked-copy attempt of one task ends: complete
success, a `PermissionError`, or any other exception; failures carry the
number of bytes already written (and counted) before the exception. -/
inductive AttemptResult where
  | ok
  | permDenied (written : Nat)
  | otherErr (written : Nat)
deriving DecidableEq, Repr

/-- Per-task environment: whether `self.cancel_requested` is observed at
the start of the task, and how the copy attempt ends otherwise. -/
structure TaskEnv where
  cancelAtStart : Bool
  attempt : AttemptResult
deriving DecidableEq, Repr

/-- How the task function returns to the pool: by raising
`InterruptedError`, or by returning `(success, path, error)`. -/
inductive TaskOutcome where
  | raisedCancel
  | returned (success : Bool)
deriving DecidableEq, Repr

/-- Everything one `copy_single_file_safe` task does: its outcome, the
number of copy attempts it made, the bytes it added to the shared counter,
the destination write it performed (relative path and bytes on disk), and
the failure entry it appended to the shared list. -/
structure TaskEffect where
  outcome : TaskOutcome
  attempts : Nat
  bytesCounted : Nat
  destWrite : Option (String × Nat)
  failEntry : Option String
deriving DecidableEq, Repr

/-- `copy_single_file_safe`: raise `InterruptedError` when the
cancellation flag is observed (before anything is written); otherwise make
exactly one chunked-copy attempt, whose every exception — permission
errors included — is recorded in the shared failure list with no retry. -/
def copy_single_file_safe (env : String → TaskEnv) (entry : String × Nat) :
    TaskEffect :=
  let e := env entry.1
  if e.cancelAtStart then ⟨TaskOutcome.raisedCancel, 0, 0, none, none⟩
  else
    match e.attempt with
    | AttemptResult.ok =>
      ⟨TaskOutcome.returned true, 1, entry.2, some (entry.1, entry.2), none⟩
    | AttemptResult.permDenied w =>
      ⟨TaskOutcome.returned false, 1, w, some (entry.1, w), some entry.1⟩
    | AttemptResult.otherErr w =>
      ⟨TaskOutcome.returned false, 1, w, some (entry.1, w), some entry.1⟩

/-- Aggregate state of the submit-and-collect loop: shared byte counter,
destination contents, shared failure list, count of files copied. -/
structure BatchState where
  counter : Nat
  dest : List (String × Nat)
  failures : List String
  filesCopied : Nat
deriving DecidableEq, Repr

/-- The `as_completed` collection loop over the manifest: a task that
raised (`InterruptedError` from cancellation) is caught by the
`except Exception` arm and appended to the failure list like any per-file
failure; a task that returned `False` was already recorded by the worker. -/
def runTasks (env : String → TaskEnv) : List (String × Nat) → BatchState
  | [] => ⟨0, [], [], 0⟩
  | e :: rest =>
    let eff := copy_single_file_safe env e
    let b := runTasks env rest
    ⟨eff.bytesCounted + b.counter,
     (match eff.destWrite with | some w => [w] | none => []) ++ b.dest,
     (match eff.outcome with
      | TaskOutcome.raisedCancel => [e.1]
      | TaskOutcome.returned true => []
      | TaskOutcome.returned false =>
        (match eff.failEntry with | some s => [s] | none => [])) ++ b.failures,
     (match eff.outcome with
      | TaskOutcome.returned true => 1
      | _ => 0) + b.filesCopied⟩

deriving instance DecidableEq for Except

/-- Result of one `copy_directory_parallel` call. -/
structure CopyRun where
  manifest : List (String × Nat)
  totalSize : Nat
  counter : Nat
  dest : List (String × Nat)
  failures : List String
  filesCopied : Nat
  retv : Except String Bool
deriving Repr

/-- `copy_directory_parallel`: build the manifest, return `True` when it is
empty, otherwise sort by size, run every task, and finally raise
`"Too many copy failures"` when more than 10% of the manifest failed
(`len(failed_files) > len(files_to_copy) * 0.1`, stated exactly over the
rationals as `10 * failures > manifest`), else return `True`. -/
def copy_directory_parallel (exDirs exFiles : List String) (srcDir : String)
    (tree : FForest) (env : String → TaskEnv) : CopyRun :=
  let mani0 := walkDir (exDirs.map strLower) (exFiles.map strLower) srcDir "" tree
  if mani0.isEmpty then ⟨[], 0, 0, [], [], 0, Except.ok true⟩
  else
    let mani := sortBySize mani0
    let total := (mani0.map (·.2)).sum
    let b := runTasks env mani
    ⟨mani, total, b.counter, b.dest, b.failures, b.filesCopied,
     if 10 * b.failures.length > mani.length then Except.error "Too many copy failures"
     else Except.ok true⟩

end Installer

namespace Installer

/-! ### Support lemmas for the copy engine -/

theorem insertBySize_perm (x : String × Nat) (l : List (String × Nat)) :
    List.Perm (insertBySize x l) (x :: l) := by
  induction l with
  | nil => exact List.Perm.refl _
  | cons y ys ih =>
    simp only [insertBySize]
    split
    · exact List.Perm.refl _
    · exact (ih.cons y).trans (List.Perm.swap x y ys)

theorem sortBySize_perm (l : List (String × Nat)) :
    List.Perm (sortBySize l) l := by
  induction l with
  | nil => exact List.Perm.refl _
  | cons x xs ih =>
    simp only [sortBySize, List.foldr]
    exact (insertBySize_perm x _).trans (ih.cons x)

theorem runTasks_failures_all_ok (env : String → TaskEnv)
    (hok : ∀ p, (env p).cancelAtStart = false ∧ (env p).attempt = AttemptResult.ok)
    (l : List (String × Nat)) : (runTasks env l).failures = [] := by
  induction l with
  | nil => rfl
  | cons e rest ih =>
    simp only [runTasks, copy_single_file_safe, (hok e.1).1, (hok e.1).2]
    simpa using ih

theorem runTasks_dest_all_ok (env : String → TaskEnv)
    (hok : ∀ p, (env p).cancelAtStart = false ∧ (env p).attempt = AttemptResult.ok)
    (l : List (String × Nat)) : (runTasks env l).dest = l := by
  induction l with
  | nil => rfl
  | cons e rest ih =>
    simp only [runTasks, copy_single_file_safe, (hok e.1).1, (hok e.1).2]
    simpa using ih

theorem runTasks_counter_all_ok (env : String → TaskEnv)
    (hok : ∀ p, (env p).cancelAtStart = false ∧ (env p).attempt = AttemptResult.ok)
    (l : List (String × Nat)) : (runTasks env l).counter = (l.map (·.2)).sum := by
  induction l with
  | nil => rfl
  | cons e rest ih =>
    simp only [runTasks, copy_single_file_safe, (hok e.1).1, (hok e.1).2,
      List.map_cons, List.sum_cons]
    simpa using ih

theorem runTasks_mem_failures (env : String → TaskEnv) (l : List (String × Nat))
    (e : String × Nat) (he : e ∈ l)
    (hf : (copy_single_file_safe env e).outcome ≠ TaskOutcome.returned true) :
    e.1 ∈ (runTasks env l).failures := by
  induction l with
  | nil => cases he
  | cons a rest ih =>
    simp only [runTasks]
    rcases List.mem_cons.mp he with rfl | hm
    · cases hc : (env e.1).cancelAtStart with
      | true => simp [copy_single_file_safe, hc]
      | false =>
        cases ha : (env e.1).attempt with
        | ok => exact absurd (by simp [copy_single_file_safe, hc, ha]) hf
        | permDenied w => simp [copy_single_file_safe, hc, ha]
        | otherErr w => simp [copy_single_file_safe, hc, ha]
    · exact List.mem_append_right _ (ih hm)

theorem runTasks_mem_dest (env : String → TaskEnv) (l : List (String × Nat))
    (e : String × Nat) (he : e ∈ l)
    (hc : (env e.1).cancelAtStart = false)
    (ha : (env e.1).attempt = AttemptResult.ok) :
    (e.1, e.2) ∈ (runTasks env l).dest := by
  induction l with
  | nil => cases he
  | cons a rest ih =>
    simp only [runTasks]
    rcases List.mem_cons.mp he with rfl | hm
    · simp [copy_single_file_safe, hc, ha]
    · exact List.mem_append_right _ (ih hm)

/-- Lookup by relative path among the files written into the destination. -/
def destLookup (d : List (String × Nat)) (p : String) : Option Nat :=
  (d.find? (fun e => e.1 == p)).map (·.2)

theorem destLookup_self (l : List (String × Nat)) (e : String × Nat)
    (he : e ∈ l) (hnd : (l.map (·.1)).Nodup) : destLookup l e.1 = some e.2 := by
  induction l with
  | nil => cases he
  | cons y rest ih =>
    rcases List.mem_cons.mp he with rfl | hm
    · simp [destLookup]
    · have hy : (y.1 == e.1) = false := by
        rw [beq_eq_false_iff_ne]
        intro heq
        have hmem : e.1 ∈ rest.map (·.1) := List.mem_map.mpr ⟨e, hm, rfl⟩
        exact (List.nodup_cons.mp (by simpa using hnd)).1 (heq ▸ hmem)
      have htl : (rest.map (·.1)).Nodup := (List.nodup_cons.mp (by simpa using hnd)).2
      simp only [destLookup, List.find?_cons, hy]
      exact ih hm htl

end Installer

/-- C1: for every tree copy with a non-empty manifest, when the failure
count `N` exceeds 10% of the manifest size `M` (`10 * N > M`, the exact
rational reading of `len(failed) > len(files) * 0.1`) the operation raises
the aggregate `"Too many copy failures"` exception; when `N ≤ 0.1 × M` it
returns `True` — even when `N > 0` — with the failure list recorded in the
run state. -/
theorem copy_failure_ratio_threshold (exDirs exFiles : List String)
    (srcDir : String) (tree : FForest) (env : String → TaskEnv)
    (hne : (copy_directory_parallel exDirs exFiles srcDir tree env).manifest ≠ []) :
    (10 * (copy_directory_parallel exDirs exFiles srcDir tree env).failures.length
        > (copy_directory_parallel exDirs exFiles srcDir tree env).manifest.length →
      (copy_directory_parallel exDirs exFiles srcDir tree env).retv
        = Except.error "Too many copy failures")
    ∧ (10 * (copy_directory_parallel exDirs exFiles srcDir tree env).failures.length
        ≤ (copy_directory_parallel exDirs exFiles srcDir tree env).manifest.length →
      (copy_directory_parallel exDirs exFiles srcDir tree env).retv
        = Except.ok true
      ∧ ((copy_directory_parallel exDirs exFiles srcDir tree env).failures.length > 0 →
          (copy_directory_parallel exDirs exFiles srcDir tree env).failures ≠ [])) := by
  by_cases hE : (walkDir (exDirs.map strLower) (exFiles.map strLower) srcDir "" tree).isEmpty
  · exact absurd (by simp [copy_directory_parallel, hE]) hne
  · simp only [copy_directory_parallel, hE, Bool.false_eq_true, if_false]
    constructor
    · intro hgt
      rw [if_pos hgt]
    · intro hle
      refine ⟨?_, ?_⟩
      · rw [if_neg (by omega)]
      · intro hpos hnil
        rw [hnil] at hpos
        simp at hpos

/-- Witness for C1: a two-file manifest with one failure (50% > 10%)
raises; a separate invocation with no failures returns `True`. -/
theorem copy_failure_ratio_threshold_witness :
    (copy_directory_parallel [] [] "C:\\s"
        (forestOf [FTree.file "a" 1, FTree.file "b" 1])
        (fun p => if p == "a" then ⟨false, AttemptResult.otherErr 0⟩
                  else ⟨false, AttemptResult.ok⟩)).retv
      = Except.error "Too many copy failures"
    ∧ (copy_directory_parallel [] [] "C:\\s"
        (forestOf [FTree.file "a" 1, FTree.file "b" 1])
        (fun _ => ⟨false, AttemptResult.ok⟩)).retv = Except.ok true :=
  ⟨(copy_failure_ratio_threshold [] [] "C:\\s"
      (forestOf [FTree.file "a" 1, FTree.file "b" 1])
      (fun p => if p == "a" then ⟨false, AttemptResult.otherErr 0⟩
                else ⟨false, AttemptResult.ok⟩)
      (by decide)).1 (by decide),
   ((copy_failure_ratio_threshold [] [] "C:\\s"
      (forestOf [FTree.file "a" 1, FTree.file "b" 1])
      (fun _ => ⟨false, AttemptResult.ok⟩)
      (by decide)).2 (by decide)).1⟩

/-- C6 counterexample: the walk of `copy_directory_parallel` additionally
skips the files of every directory whose full path contains an excluded
directory name as a case-insensitive substring.  With the default
exclusions, the directory `resources` (whose path contains `source`)
is skipped even though its name is in no exclusion set, so its file never
reaches the destination although the operation reports success. -/
theorem copy_completeness_counterexample :
    (copy_directory_parallel ["F4SE", "source", "scripts\\source"] []
        "C:\\src" (forestOf [FTree.dir "resources" (forestOf [FTree.file "a.txt" 1])])
        (fun _ => ⟨false, AttemptResult.ok⟩)).retv = Except.ok true
    ∧ ([] : List String).contains (strLower "a.txt") = false
    ∧ (["F4SE", "source", "scripts\\source"].map strLower).contains
        (strLower "resources") = false
    ∧ destLookup (copy_directory_parallel ["F4SE", "source", "scripts\\source"] []
        "C:\\src" (forestOf [FTree.dir "resources" (forestOf [FTree.file "a.txt" 1])])
        (fun _ => ⟨false, AttemptResult.ok⟩)).dest "resources\\a.txt" = none := by
  decide

/-- C6 (amended): for every entry of the manifest the walk builds — which
excludes files by name, files under pruned directories, and all files of
any directory whose full path contains an excluded directory name as a
case-insensitive substring — after a copy in which no per-file failure or
cancellation occurs, the destination holds a file of the same relative
path and byte size, the operation returns `True`, and the shared byte
counter equals the total manifest size. -/
theorem copy_completeness_amended (exDirs exFiles : List String)
    (srcDir : String) (tree : FForest) (env : String → TaskEnv)
    (hok : ∀ p, (env p).cancelAtStart = false ∧ (env p).attempt = AttemptResult.ok)
    (hnd : ((copy_directory_parallel exDirs exFiles srcDir tree env).manifest.map
        (·.1)).Nodup) :
    (copy_directory_parallel exDirs exFiles srcDir tree env).retv = Except.ok true
    ∧ (∀ e ∈ (copy_directory_parallel exDirs exFiles srcDir tree env).manifest,
        destLookup (copy_directory_parallel exDirs exFiles srcDir tree env).dest e.1
          = some e.2)
    ∧ (copy_directory_parallel exDirs exFiles srcDir tree env).counter
      = (copy_directory_parallel exDirs exFiles srcDir tree env).totalSize := by
  by_cases hE : (walkDir (exDirs.map strLower) (exFiles.map strLower) srcDir "" tree).isEmpty
  · refine ⟨by simp [copy_directory_parallel, hE], ?_, by simp [copy_directory_parallel, hE]⟩
    intro e he
    rw [show (copy_directory_parallel exDirs exFiles srcDir tree env).manifest = []
      from by simp [copy_directory_parallel, hE]] at he
    cases he
  · have hfail := runTasks_failures_all_ok env hok
      (sortBySize (walkDir (exDirs.map strLower) (exFiles.map strLower) srcDir "" tree))
    have hdest := runTasks_dest_all_ok env hok
      (sortBySize (walkDir (exDirs.map strLower) (exFiles.map strLower) srcDir "" tree))
    have hcnt := runTasks_counter_all_ok env hok
      (sortBySize (walkDir (exDirs.map strLower) (exFiles.map strLower) srcDir "" tree))
    have hsum : ((sortBySize (walkDir (exDirs.map strLower) (exFiles.map strLower)
          srcDir "" tree)).map (·.2)).sum
        = ((walkDir (exDirs.map strLower) (exFiles.map strLower) srcDir "" tree).map
            (·.2)).sum :=
      List.Perm.sum_eq ((sortBySize_perm _).map _)
    simp only [copy_directory_parallel, hE, Bool.false_eq_true, if_false] at hnd ⊢
    refine ⟨?_, ?_, ?_⟩
    · rw [hfail]
      simp
    · intro e he
      rw [hdest]
      exact destLookup_self _ e he hnd
    · rw [hcnt, hsum]

/-- C7 counterexample: in the parallel copier a permission error does not
trigger a retry — the single attempt is recorded as a failure (the claim
predicts a second attempt after clearing the read-only attribute). -/
theorem copy_retry_counterexample :
    (copy_single_file_safe (fun _ => ⟨false, AttemptResult.permDenied 0⟩)
        ("locked.dll", 5)).attempts = 1
    ∧ (copy_single_file_safe (fun _ => ⟨false, AttemptResult.permDenied 0⟩)
        ("locked.dll", 5)).outcome = TaskOutcome.returned false
    ∧ (copy_single_file_safe (fun _ => ⟨false, AttemptResult.permDenied 0⟩)
        ("locked.dll", 5)).failEntry = some "locked.dll" := by
  decide

/-- C7 (amended): in the parallel tree copier every non-cancelled manifest
entry gets exactly one copy attempt; a permission error — like every other
per-file exception — is recorded as a failure with no retry (the
destination's read-only attribute is cleared preemptively before the
attempt when the destination exists), and the batch continues with the
remaining files.  The one-retry-after-clearing-read-only behaviour lives
in the sequential `copy_directory_with_progress`, not the parallel
copier. -/
theorem copy_parallel_no_retry (env : String → TaskEnv) (e : String × Nat)
    (l : List (String × Nat)) (hc : (env e.1).cancelAtStart = false) :
    (copy_single_file_safe env e).attempts = 1
    ∧ ((env e.1).attempt ≠ AttemptResult.ok →
        (copy_single_file_safe env e).outcome = TaskOutcome.returned false
        ∧ (copy_single_file_safe env e).failEntry = some e.1)
    ∧ (e ∈ l → (env e.1).attempt = AttemptResult.ok →
        (e.1, e.2) ∈ (runTasks env l).dest) := by
  refine ⟨?_, ?_, ?_⟩
  · cases ha : (env e.1).attempt <;> simp [copy_single_file_safe, hc, ha]
  · intro hna
    cases ha : (env e.1).attempt with
    | ok => exact absurd ha hna
    | permDenied w => simp [copy_single_file_safe, hc, ha]
    | otherErr w => simp [copy_single_file_safe, hc, ha]
  · intro he ha
    exact runTasks_mem_dest env l e he hc ha

/-- Witness for C7 (amended) at a concrete permission-denied attempt. -/
theorem copy_parallel_no_retry_witness :
    (copy_single_file_safe (fun _ => ⟨false, AttemptResult.permDenied 3⟩)
        ("b.txt", 9)).attempts = 1 :=
  (copy_parallel_no_retry (fun _ => ⟨false, AttemptResult.permDenied 3⟩)
    ("b.txt", 9) [] rfl).1

/-- C8 counterexample: a cancellation observed by one of eleven tasks is
caught by the result loop and recorded as an ordinary per-file failure;
the pool is not unwound and the operation still returns success
(1 failure ≤ 10% of 11 files). -/
theorem copy_cancellation_counterexample :
    (copy_directory_parallel ["F4SE", "source", "scripts\\source"] [] "C:\\data"
        (forestOf
         [FTree.file "f01" 1, FTree.file "f02" 1, FTree.file "f03" 1,
          FTree.file "f04" 1, FTree.file "f05" 1, FTree.file "f06" 1,
          FTree.file "f07" 1, FTree.file "f08" 1, FTree.file "f09" 1,
          FTree.file "f10" 1, FTree.file "f11" 1])
        (fun p => if p == "f11" then ⟨true, AttemptResult.ok⟩
                  else ⟨false, AttemptResult.ok⟩)).retv = Except.ok true
    ∧ (copy_directory_parallel ["F4SE", "source", "scripts\\source"] [] "C:\\data"
        (forestOf
         [FTree.file "f01" 1, FTree.file "f02" 1, FTree.file "f03" 1,
          FTree.file "f04" 1, FTree.file "f05" 1, FTree.file "f06" 1,
          FTree.file "f07" 1, FTree.file "f08" 1, FTree.file "f09" 1,
          FTree.file "f10" 1, FTree.file "f11" 1])
        (fun p => if p == "f11" then ⟨true, AttemptResult.ok⟩
                  else ⟨false, AttemptResult.ok⟩)).failures = ["f11"]
    ∧ ((fun p => if p == "f11" then (⟨true, AttemptResult.ok⟩ : TaskEnv)
                 else ⟨false, AttemptResult.ok⟩) "f11").cancelAtStart = true := by
  decide

/-- C8 (amended): a task that observes the cancellation flag raises
`InterruptedError` before writing anything, but the result-collection loop
catches it and records it as an ordinary per-file failure; the pool is not
unwound — every other task still runs, and already-copied files stay in
the destination with no rollback — and the operation fails only through
the aggregate >10% failure threshold, otherwise it returns `True`. -/
theorem copy_cancellation_recorded_as_failure (env : String → TaskEnv)
    (e : String × Nat) (l : List (String × Nat)) (exDirs exFiles : List String)
    (srcDir : String) (tree : FForest)
    (he : e ∈ l) (hc : (env e.1).cancelAtStart = true) :
    (copy_single_file_safe env e).outcome = TaskOutcome.raisedCancel
    ∧ (copy_single_file_safe env e).destWrite = none
    ∧ e.1 ∈ (runTasks env l).failures
    ∧ (∀ e' ∈ l, (env e'.1).cancelAtStart = false →
        (env e'.1).attempt = AttemptResult.ok →
        (e'.1, e'.2) ∈ (runTasks env l).dest)
    ∧ (10 * (copy_directory_parallel exDirs exFiles srcDir tree env).failures.length
          ≤ (copy_directory_parallel exDirs exFiles srcDir tree env).manifest.length →
        (copy_directory_parallel exDirs exFiles srcDir tree env).retv
          = Except.ok true) := by
  refine ⟨by simp [copy_single_file_safe, hc], by simp [copy_single_file_safe, hc],
    ?_, ?_, ?_⟩
  · exact runTasks_mem_failures env l e he (by simp [copy_single_file_safe, hc])
  · intro e' he' hc' ha'
    exact runTasks_mem_dest env l e' he' hc' ha'
  · intro hle
    by_cases hE : (walkDir (exDirs.map strLower) (exFiles.map strLower) srcDir "" tree).isEmpty
    · simp [copy_directory_parallel, hE]
    · simp only [copy_directory_parallel, hE, Bool.false_eq_true, if_false] at hle ⊢
      rw [if_neg (by omega)]

/-- Witness for C8 (amended) at a concrete cancelled task. -/
theorem copy_cancellation_recorded_as_failure_witness :
    (copy_single_file_safe (fun _ => ⟨true, AttemptResult.ok⟩) ("x", 2)).outcome
        = TaskOutcome.raisedCancel
    ∧ "x" ∈ (runTasks (fun _ => ⟨true, AttemptResult.ok⟩) [("x", 2)]).failures :=
  ⟨(copy_cancellation_recorded_as_failure (fun _ => ⟨true, AttemptResult.ok⟩)
      ("x", 2) [("x", 2)] [] [] "C:\\s" FForest.nil (by simp) rfl).1,
   (copy_cancellation_recorded_as_failure (fun _ => ⟨true, AttemptResult.ok⟩)
      ("x", 2) [("x", 2)] [] [] "C:\\s" FForest.nil (by simp) rfl).2.2.1⟩

/-- Witness for C6 (amended): a concrete two-file tree copied with no
failures lands both files in the destination and returns `True`. -/
theorem copy_completeness_amended_witness :
    (copy_directory_parallel [] [] "C:\\game"
        (forestOf [FTree.file "core.esm" 4, FTree.dir "tex" (forestOf [FTree.file "t.ba2" 6])])
        (fun _ => ⟨false, AttemptResult.ok⟩)).retv = Except.ok true
    ∧ (copy_directory_parallel [] [] "C:\\game"
        (forestOf [FTree.file "core.esm" 4, FTree.dir "tex" (forestOf [FTree.file "t.ba2" 6])])
        (fun _ => ⟨false, AttemptResult.ok⟩)).counter
      = (copy_directory_parallel [] [] "C:\\game"
        (forestOf [FTree.file "core.esm" 4, FTree.dir "tex" (forestOf [FTree.file "t.ba2" 6])])
        (fun _ => ⟨false, AttemptResult.ok⟩)).totalSize :=
  ⟨(copy_completeness_amended [] [] "C:\\game"
      (forestOf [FTree.file "core.esm" 4, FTree.dir "tex" (forestOf [FTree.file "t.ba2" 6])])
      (fun _ => ⟨false, AttemptResult.ok⟩) (fun _ => ⟨rfl, rfl⟩) (by decide)).1,
   (copy_completeness_amended [] [] "C:\\game"
      (forestOf [FTree.file "core.esm" 4, FTree.dir "tex" (forestOf [FTree.file "t.ba2" 6])])
      (fun _ => ⟨false, AttemptResult.ok⟩) (fun _ => ⟨rfl, rfl⟩) (by decide)).2.2⟩
